import Mathlib

/-!
Verification development for the tiered memory management subsystem
(`useMemorySystem` hook): storage with similarity-based deduplication,
relevance-ranked retrieval, compression/eviction across the
short-term / long-term / archive tiers, retention scoring, and the
archive aging sweep.

Modelling conventions:
* JS `number` values that the code compares or adds exactly are modelled
  as `ℚ` (timestamps in epoch milliseconds, importance, access counts,
  similarity ratios); the transcendental scoring formulas
  (`Math.exp`, `Math.log`) are modelled over `ℝ`.
* `content` payloads are the string values the callers pass;
  `JSON.stringify` of a string payload is modelled as wrapping the
  characters in double quotes, and `.toLowerCase()` as a character map.
* JS `String.split(/\s+/)` is modelled by `wsSplitAux` (maximal
  whitespace runs separate tokens; a leading/trailing run contributes an
  empty token, and `"".split` gives `[""]`).
* JS array sort with the comparator `(a, b) => key b - key a` is a
  stable descending sort by `key`; it is modelled by `List.mergeSort`
  with the boolean relation `key b ≤ key a`, which is also stable.
-/

namespace MemSpec

/-- `toLowerCase()` on the character list of a string. -/
def lowerChars (l : List Char) : List Char := l.map Char.toLower

/-- `JSON.stringify` applied to a string payload: wrap in double quotes. -/
def serializeContent (c : String) : List Char := '"' :: c.data ++ ['"']

/-- `JSON.stringify(content).toLowerCase()` from `calculateSimilarity` /
`calculateRelevance`. -/
def serializedLower (c : String) : List Char := lowerChars (serializeContent c)

/-- Worker for JS `split(/\s+/)`: `inRun` records whether the previous
character was part of a whitespace run, `acc` is the current token in
reverse. -/
def wsSplitAux : Bool → List Char → List Char → List (List Char)
  | _, acc, [] => [acc.reverse]
  | inRun, acc, c :: rest =>
    if c.isWhitespace then
      if inRun then wsSplitAux true acc rest
      else acc.reverse :: wsSplitAux true [] rest
    else wsSplitAux false (c :: acc) rest

/-- JS `str.split(/\s+/)` on a character list. -/
def jsWords (s : List Char) : List (List Char) := wsSplitAux false [] s

/-- JS `hay.includes(needle)` (substring containment). -/
def jsIncludes (hay needle : List Char) : Bool :=
  hay.tails.any (fun t => needle.isPrefixOf t)

/-- JS `tags.join(' ')` on the character level. -/
def joinSpace : List String → List Char
  | [] => []
  | [t] => t.data
  | t :: rest => t.data ++ (' ' :: joinSpace rest)

/-- The `MemoryItem` interface: `id`, `content`, `timestamp` (epoch ms),
`accessCount`, `importance`, `tags`, and the optional fields
`retentionScore` (set by compression) and `lastAccessed` (declared in the
interface, never written by any operation). The opaque `metadata`
record, `compressionLevel` and `semanticVector` fields are never read by
the memory subsystem and are omitted. -/
structure MemoryItem where
  id : String
  content : String
  timestamp : ℚ
  accessCount : ℚ
  importance : ℚ
  tags : List String
  retentionScore : Option ℝ
  lastAccessed : Option ℚ

/-- The `MemorySystemState`: three tiers plus aggregate statistics. -/
structure MemorySystemState where
  shortTerm : List MemoryItem
  longTerm : List MemoryItem
  archive : List MemoryItem
  compressionRatio : ℚ
  retentionScore : ℚ
  cyclicCleanup : ℕ

/-- `calculateSimilarity`: exact-match short-circuit to 1.0, otherwise
Jaccard similarity of the whitespace-token sets of the lowercased
serialized contents. -/
def calculateSimilarity (content1 content2 : String) : ℚ :=
  let str1 := serializedLower content1
  let str2 := serializedLower content2
  if str1 = str2 then 1
  else
    let words1 := (jsWords str1).dedup
    let words2 := (jsWords str2).dedup
    let intersection := words1.filter (fun w => decide (w ∈ words2))
    let union := (words1 ++ words2).dedup
    (intersection.length : ℚ) / (union.length : ℚ)

/-- The fixed tag set that boosts retention. -/
def importantTags : List String :=
  ["critical", "important", "user-preference", "system-config"]

/-- `calculateRetentionScore(memory, currentTime)`: importance, plus a
capped access-frequency boost, exponentially decayed by age in days,
multiplied by 1.5 when an important tag is present, clamped above by 1. -/
noncomputable def calculateRetentionScore (m : MemoryItem) (now : ℚ) : ℝ :=
  let ageInDays : ℝ := ((now - m.timestamp : ℚ) : ℝ) / 86400000
  let base : ℝ := (m.importance : ℝ) + min 0.3 ((m.accessCount : ℝ) * 0.05)
  let decayed : ℝ := base * Real.exp (-ageInDays * 0.1)
  let boosted : ℝ :=
    if m.tags.any (fun tag => decide (tag ∈ importantTags)) then decayed * 1.5
    else decayed
  min 1 boosted

/-- `calculateRelevance(query, memory)`: substring bonuses, word-overlap
term, then the importance, access-count and recency multipliers, clamped
above by 1. -/
noncomputable def calculateRelevance (now : ℚ) (query : String) (m : MemoryItem) : ℝ :=
  let queryLower := lowerChars query.data
  let contentStr := serializedLower m.content
  let tagsStr := lowerChars (joinSpace m.tags)
  let exactBonus : ℝ := if jsIncludes contentStr queryLower then 0.8 else 0
  let tagBonus : ℝ := if jsIncludes tagsStr queryLower then 0.6 else 0
  let queryWords := jsWords queryLower
  let contentWords := jsWords contentStr
  let overlap := (queryWords.filter (fun w => decide (w ∈ contentWords))).length
  let score0 : ℝ := exactBonus + tagBonus + ((overlap : ℝ) / (queryWords.length : ℝ)) * 0.4
  let score1 : ℝ := score0 * (1 + (m.importance : ℝ) * 0.2)
  let score2 : ℝ := score1 * (1 + Real.log ((m.accessCount : ℝ) + 1) * 0.1)
  let daysSinceCreation : ℝ := ((now - m.timestamp : ℚ) : ℝ) / 86400000
  let score3 : ℝ := score2 * max 0.5 (1 - daysSinceCreation * 0.01)
  min 1 score3

/-- The retention-score key read back by the compression sort and the
archive-worthiness filter (always set at those points). -/
noncomputable def retKey (m : MemoryItem) : ℝ := m.retentionScore.getD 0

/-- The comparator `(a, b) => b.retentionScore - a.retentionScore` as a
boolean "a may precede b" relation: descending by retention score. -/
noncomputable def retentionLe (a b : MemoryItem) : Bool :=
  decide (retKey b ≤ retKey a)

/-- JS `array.slice(a, b)` (for `a ≤ b`). -/
def jsSlice (l : List MemoryItem) (a b : ℕ) : List MemoryItem := (l.drop a).take (b - a)

/-- `scoredMemories` in `compressMemoriesInternal`: copies of the
short-term records annotated with their freshly computed retention
score. -/
noncomputable def scoredShortTerm (now : ℚ) (s : MemorySystemState) : List MemoryItem :=
  s.shortTerm.map (fun m => { m with retentionScore := some (calculateRetentionScore m now) })

/-- The short-term records sorted descending by retention score. -/
noncomputable def sortedByRetention (now : ℚ) (s : MemorySystemState) : List MemoryItem :=
  (scoredShortTerm now s).mergeSort retentionLe

/-- `Math.floor(compressionThreshold * 0.7)` with `compressionThreshold = 50`. -/
def keepCount : ℕ := (⌊(50 : ℚ) * (7 / 10)⌋).toNat

/-- The records beyond rank `keepCount + 20` that pass the
`retentionScore > 0.3` archive filter. -/
noncomputable def newlyArchived (now : ℚ) (s : MemorySystemState) : List MemoryItem :=
  ((sortedByRetention now s).drop (keepCount + 20)).filter
    (fun m => decide ((0.3 : ℝ) < retKey m))

/-- The archive-sweep predicate: keep a record when its timestamp is
strictly newer than `now` minus 30 days, or its importance exceeds 0.8. -/
def sweepKeep (now : ℚ) (m : MemoryItem) : Bool :=
  decide (now - 30 * 24 * 60 * 60 * 1000 < m.timestamp) || decide ((0.8 : ℚ) < m.importance)

/-- `compressMemoriesInternal(state)` with `now` passed explicitly:
when more than 50 short-term records exist, keep the top
`keepCount`, promote the next 20 to long-term, archive the remainder
with score above 0.3, and update the compression ratio; then sweep the
archive by age/importance and increment the cleanup counter. -/
noncomputable def compressMemoriesInternal (now : ℚ) (state : MemorySystemState) :
    MemorySystemState :=
  let s1 :=
    if 50 < state.shortTerm.length then
      let sorted := sortedByRetention now state
      let kept := jsSlice sorted 0 keepCount
      let moveToLongTerm := jsSlice sorted keepCount (keepCount + 20)
      let archiveWorthy := newlyArchived now state
      { state with
          shortTerm := kept
          longTerm := state.longTerm ++ moveToLongTerm
          archive := state.archive ++ archiveWorthy
          compressionRatio :=
            ((kept.length + moveToLongTerm.length + archiveWorthy.length : ℕ) : ℚ) /
              ((sorted.length : ℕ) : ℚ) }
    else state
  let s2 := { s1 with archive := s1.archive.filter (sweepKeep now) }
  { s2 with cyclicCleanup := s2.cyclicCleanup + 1 }

/-- The public `compressMemories()` entry point. -/
noncomputable def compressMemories (now : ℚ) (s : MemorySystemState) : MemorySystemState :=
  compressMemoriesInternal now s

/-- The duplicate check in `storeMemory`: some existing short-term
record has content similarity above 0.9 with the new item. -/
def isDuplicate (item : MemoryItem) (s : MemorySystemState) : Bool :=
  s.shortTerm.any (fun existing =>
    decide ((0.9 : ℚ) < calculateSimilarity existing.content item.content))

/-- `storeMemory(item)`: drop duplicates silently, otherwise append to
short-term and synchronously compress when the tier exceeds 100
records. -/
noncomputable def storeMemory (now : ℚ) (item : MemoryItem) (s : MemorySystemState) :
    MemorySystemState :=
  if isDuplicate item s then s
  else
    let appended := { s with shortTerm := s.shortTerm ++ [item] }
    if 100 < appended.shortTerm.length then compressMemoriesInternal now appended
    else appended

/-- `sortBy` retrieval option. -/
inductive SortBy
  | relevance
  | recency
  | importance

/-- `MemoryRetrievalOptions` with all defaults resolved. -/
structure MemoryRetrievalOptions where
  limit : ℕ
  threshold : ℝ
  includeArchived : Bool
  sortBy : SortBy

/-- The destructuring defaults `limit = 10`, `threshold = 0.7`,
`includeArchived = false`, `sortBy = 'relevance'`. -/
noncomputable def defaultOptions : MemoryRetrievalOptions :=
  ⟨10, 0.7, false, SortBy.relevance⟩

/-- `allMemories` in `retrieveMemories`: both resident tiers, plus the
archive when `includeArchived` is set. -/
def candidateMemories (opts : MemoryRetrievalOptions) (s : MemorySystemState) :
    List MemoryItem :=
  s.shortTerm ++ s.longTerm ++ (if opts.includeArchived then s.archive else [])

/-- The candidates annotated with their relevance score, with the
sub-threshold ones discarded. -/
noncomputable def relevanceSurvivors (now : ℚ) (query : String)
    (opts : MemoryRetrievalOptions) (s : MemorySystemState) : List (MemoryItem × ℝ) :=
  ((candidateMemories opts s).map (fun m => (m, calculateRelevance now query m))).filter
    (fun p => decide (opts.threshold ≤ p.2))

/-- The three retrieval sort comparators, each as a boolean "a may
precede b" relation: relevance descending, newest timestamp first,
importance descending. -/
noncomputable def sortCmp : SortBy → (MemoryItem × ℝ) → (MemoryItem × ℝ) → Bool
  | SortBy.relevance, a, b => decide (b.2 ≤ a.2)
  | SortBy.recency, a, b => decide (b.1.timestamp ≤ a.1.timestamp)
  | SortBy.importance, a, b => decide (b.1.importance ≤ a.1.importance)

/-- The surviving candidates sorted by the chosen criterion. -/
noncomputable def sortedSurvivors (now : ℚ) (query : String)
    (opts : MemoryRetrievalOptions) (s : MemorySystemState) : List (MemoryItem × ℝ) :=
  (relevanceSurvivors now query opts s).mergeSort (sortCmp opts.sortBy)

/-- The per-record update in `retrieveMemories`'s `setMemorySystem` call:
bump `accessCount` when the record's id is among the retrieved ids,
leave the record alone otherwise. -/
def bumpIfRetrieved (ids : List String) (m : MemoryItem) : MemoryItem :=
  if decide (m.id ∈ ids) then { m with accessCount := m.accessCount + 1 } else m

/-- `retrieveMemories(query, options)`: returns the first `limit` sorted
survivors, and bumps `accessCount` on the persisted short-term and
long-term records whose id is among the returned ids. -/
noncomputable def retrieveMemories (now : ℚ) (query : String)
    (opts : MemoryRetrievalOptions) (s : MemorySystemState) :
    List (MemoryItem × ℝ) × MemorySystemState :=
  let retrieved := (sortedSurvivors now query opts s).take opts.limit
  let retrievedIds := retrieved.map (fun p => p.1.id)
  (retrieved,
   { s with
       shortTerm := s.shortTerm.map (bumpIfRetrieved retrievedIds)
       longTerm := s.longTerm.map (bumpIfRetrieved retrievedIds) })

/-- The aggregates returned by `getMemoryStats()`. -/
structure MemoryStats where
  totalMemories : ℕ
  shortTermCount : ℕ
  longTermCount : ℕ
  archiveCount : ℕ
  averageImportance : ℚ
  compressionRatio : ℚ
  retentionScore : ℚ
  cleanupCycles : ℕ

/-- `getMemoryStats()`: a pure read of the aggregate statistics. -/
def getMemoryStats (s : MemorySystemState) : MemoryStats :=
  let all := s.shortTerm ++ s.longTerm ++ s.archive
  let total := s.shortTerm.length + s.longTerm.length + s.archive.length
  { totalMemories := total
    shortTermCount := s.shortTerm.length
    longTermCount := s.longTerm.length
    archiveCount := s.archive.length
    averageImportance :=
      if 0 < total then (all.foldl (fun sum m => sum + m.importance) 0) / (total : ℚ)
      else 0
    compressionRatio := s.compressionRatio
    retentionScore := s.retentionScore
    cleanupCycles := s.cyclicCleanup }

end MemSpec

namespace MemSpec

/-! ## Shared helper lemmas and concrete inputs -/

theorem keepCount_eq : keepCount = 35 := by
  have h : ⌊(50 : ℚ) * (7 / 10)⌋ = 35 := by norm_num
  rw [keepCount, h]
  rfl

/-- Characterization of the compression routine when the short-term tier
is at or below the internal threshold: only the archive sweep and the
cleanup counter fire. -/
theorem compress_below (now : ℚ) (s : MemorySystemState)
    (h : s.shortTerm.length ≤ 50) :
    compressMemoriesInternal now s =
      { s with
          archive := s.archive.filter (sweepKeep now)
          cyclicCleanup := s.cyclicCleanup + 1 } := by
  rw [compressMemoriesInternal, if_neg (by omega)]

/-- Characterization of the compression routine above the internal
threshold. -/
theorem compress_above (now : ℚ) (s : MemorySystemState)
    (h : 50 < s.shortTerm.length) :
    compressMemoriesInternal now s =
      { s with
          shortTerm := jsSlice (sortedByRetention now s) 0 keepCount
          longTerm := s.longTerm ++ jsSlice (sortedByRetention now s) keepCount (keepCount + 20)
          archive := (s.archive ++ newlyArchived now s).filter (sweepKeep now)
          compressionRatio :=
            (((jsSlice (sortedByRetention now s) 0 keepCount).length +
                (jsSlice (sortedByRetention now s) keepCount (keepCount + 20)).length +
                (newlyArchived now s).length : ℕ) : ℚ) /
              (((sortedByRetention now s).length : ℕ) : ℚ)
          cyclicCleanup := s.cyclicCleanup + 1 } := by
  rw [compressMemoriesInternal, if_pos h]

/-- A short-term record with content `"alpha"`, zero importance and
access count, created at epoch 0. -/
def itemA : MemoryItem := ⟨"ida", "alpha", 0, 0, 0, [], none, none⟩

/-- A distinct item whose content is byte-identical to `itemA`'s. -/
def itemB : MemoryItem := ⟨"idb", "alpha", 0, 0, 0, [], none, none⟩

/-- An archived record with importance 0.5 created at epoch 0. -/
def itemOld : MemoryItem := ⟨"old", "x", 0, 0, 1/2, [], none, none⟩

/-- A state with no records. -/
def emptyState : MemorySystemState := ⟨[], [], [], 7/10, 8/10, 0⟩

/-- A state whose short-term tier holds exactly `itemA`. -/
def state1 : MemorySystemState := ⟨[itemA], [], [], 7/10, 8/10, 0⟩

/-- A state whose archive holds exactly `itemOld`. -/
def stateOld : MemorySystemState := ⟨[], [], [itemOld], 7/10, 8/10, 0⟩

theorem similarity_self (c : String) : calculateSimilarity c c = 1 := by
  rw [calculateSimilarity, if_pos rfl]

/-! ## C2 -/

/-- C2 (counterexample): calling `compress()` on a store whose
short-term tier has at most 50 records (here: an empty one) does not
leave everything unchanged — the `cyclicCleanup` counter is
incremented. -/
theorem c2_counterexample :
    emptyState.shortTerm.length ≤ 50 ∧
    (compressMemories 0 emptyState).cyclicCleanup ≠ emptyState.cyclicCleanup := by
  refine ⟨by simp [emptyState], ?_⟩
  simp [compressMemories, compressMemoriesInternal, emptyState]

/-- C2 (amended): if `compress()` is called when `shortTerm` contains 50
or fewer records, `shortTerm`, `longTerm` and the compression ratio are
unchanged, but the archive is still swept by the aging rule and
`cyclicCleanup` is incremented by one. -/
theorem c2_compress_below_threshold (now : ℚ) (s : MemorySystemState)
    (h : s.shortTerm.length ≤ 50) :
    (compressMemories now s).shortTerm = s.shortTerm ∧
    (compressMemories now s).longTerm = s.longTerm ∧
    (compressMemories now s).compressionRatio = s.compressionRatio ∧
    (compressMemories now s).archive = s.archive.filter (sweepKeep now) ∧
    (compressMemories now s).cyclicCleanup = s.cyclicCleanup + 1 := by
  rw [compressMemories, compress_below now s h]
  exact ⟨rfl, rfl, rfl, rfl, rfl⟩

/-- C2 witness: the amended statement applied to the empty store. -/
theorem c2_witness :
    emptyState.shortTerm.length ≤ 50 ∧
    ((compressMemories 0 emptyState).shortTerm = emptyState.shortTerm ∧
     (compressMemories 0 emptyState).longTerm = emptyState.longTerm ∧
     (compressMemories 0 emptyState).compressionRatio = emptyState.compressionRatio ∧
     (compressMemories 0 emptyState).archive = emptyState.archive.filter (sweepKeep 0) ∧
     (compressMemories 0 emptyState).cyclicCleanup = emptyState.cyclicCleanup + 1) :=
  ⟨by simp [emptyState], c2_compress_below_threshold 0 emptyState (by simp [emptyState])⟩

/-! ## C4 -/

/-- C4: when some existing short-term record's content similarity with
the new item exceeds 0.9, `store` is a no-op on the whole state. -/
theorem c4_dedup_store_noop (now : ℚ) (item : MemoryItem) (s : MemorySystemState)
    (h : ∃ existing ∈ s.shortTerm,
      (0.9 : ℚ) < calculateSimilarity existing.content item.content) :
    storeMemory now item s = s := by
  rw [storeMemory, if_pos]
  simp only [isDuplicate, List.any_eq_true, decide_eq_true_eq]
  exact h

/-- C4 witness: storing an item byte-identical in content to an existing
short-term record (similarity short-circuits to 1.0 > 0.9) changes
nothing. -/
theorem c4_witness :
    (∃ existing ∈ state1.shortTerm,
      (0.9 : ℚ) < calculateSimilarity existing.content itemB.content) ∧
    storeMemory 0 itemB state1 = state1 := by
  have h : ∃ existing ∈ state1.shortTerm,
      (0.9 : ℚ) < calculateSimilarity existing.content itemB.content := by
    refine ⟨itemA, by simp [state1], ?_⟩
    rw [show itemA.content = "alpha" from rfl, show itemB.content = "alpha" from rfl,
      similarity_self]
    norm_num
  exact ⟨h, c4_dedup_store_noop 0 itemB state1 h⟩

/-! ## C5 -/

/-- C5 (counterexample): an archived record exactly 30 days old (hence
"at most 30 days old") with importance 0.5 is removed by the sweep, not
retained: the code keeps only records strictly newer than the cutoff. -/
theorem c5_counterexample :
    (2592000000 : ℚ) - itemOld.timestamp = 30 * 24 * 60 * 60 * 1000 ∧
    itemOld.importance ≤ 0.8 ∧
    itemOld ∈ stateOld.archive ∧
    (compressMemories 2592000000 stateOld).archive = [] := by
  refine ⟨by norm_num [itemOld], by norm_num [itemOld], by simp [stateOld], ?_⟩
  rw [compressMemories, compress_below 2592000000 stateOld (by simp [stateOld])]
  simp only [stateOld, List.filter_cons, List.filter_nil]
  rw [if_neg]
  simp only [sweepKeep, itemOld, Bool.or_eq_true, decide_eq_true_eq]
  norm_num

/-- C5 (amended): on every `compress()` call the archive (with any
newly archived records appended) is filtered by the sweep predicate,
and that predicate keeps a record exactly when it is strictly less than
30 days old or its importance exceeds 0.8. -/
theorem c5_archive_sweep (now : ℚ) (s : MemorySystemState) :
    (∃ appended, (compressMemories now s).archive =
      (s.archive ++ appended).filter (sweepKeep now)) ∧
    (∀ m : MemoryItem, sweepKeep now m = true ↔
      (now - m.timestamp < 30 * 24 * 60 * 60 * 1000 ∨ (0.8 : ℚ) < m.importance)) := by
  constructor
  · by_cases h : 50 < s.shortTerm.length
    · exact ⟨newlyArchived now s, by rw [compressMemories, compress_above now s h]⟩
    · exact ⟨[], by rw [compressMemories, compress_below now s (by omega)]; simp⟩
  · intro m
    simp only [sweepKeep, Bool.or_eq_true, decide_eq_true_eq]
    constructor
    · rintro (h | h)
      · exact Or.inl (by linarith)
      · exact Or.inr h
    · rintro (h | h)
      · exact Or.inl (by linarith)
      · exact Or.inr h

/-! ## C9 -/

/-- C9: the retention score computed during compression equals
`min 1 ((importance + min 0.3 (accessCount × 0.05)) × e^(−ageInDays × 0.1) × t)`
with `t = 1.5` when an important tag is present and `t = 1` otherwise,
and for importance in [0,1] and non-negative access count the result
lies in [0, 1]. -/
theorem c9_retention_formula (m : MemoryItem) (now : ℚ)
    (h0 : 0 ≤ m.importance) (_h1 : m.importance ≤ 1) (h2 : 0 ≤ m.accessCount) :
    calculateRetentionScore m now =
      min 1 (((m.importance : ℝ) + min 0.3 ((m.accessCount : ℝ) * 0.05)) *
        Real.exp (-(((now - m.timestamp : ℚ) : ℝ) / 86400000) * 0.1) *
        (if ∃ tag ∈ m.tags, tag ∈ importantTags then 1.5 else 1)) ∧
    0 ≤ calculateRetentionScore m now ∧ calculateRetentionScore m now ≤ 1 := by
  have hbase : (0 : ℝ) ≤ (m.importance : ℝ) + min 0.3 ((m.accessCount : ℝ) * 0.05) := by
    have : (0 : ℝ) ≤ (m.importance : ℝ) := by exact_mod_cast h0
    have hac : (0 : ℝ) ≤ (m.accessCount : ℝ) := by exact_mod_cast h2
    have : (0 : ℝ) ≤ min 0.3 ((m.accessCount : ℝ) * 0.05) := by
      apply le_min (by norm_num)
      nlinarith
    nlinarith
  refine ⟨?_, ?_, ?_⟩
  · rw [calculateRetentionScore]
    by_cases ht : ∃ tag ∈ m.tags, tag ∈ importantTags
    · have hb : (m.tags.any fun tag => decide (tag ∈ importantTags)) = true := by
        simpa only [List.any_eq_true, decide_eq_true_eq] using ht
      rw [if_pos ht, if_pos hb]
    · have hb : ¬(m.tags.any fun tag => decide (tag ∈ importantTags)) = true := by
        simpa only [List.any_eq_true, decide_eq_true_eq] using ht
      rw [if_neg ht, if_neg hb, mul_one]
  · rw [calculateRetentionScore]
    have hexp : (0 : ℝ) < Real.exp (-(((now - m.timestamp : ℚ) : ℝ) / 86400000) * 0.1) :=
      Real.exp_pos _
    apply le_min (by norm_num)
    by_cases ht : (m.tags.any (fun tag => decide (tag ∈ importantTags))) = true
    · rw [if_pos ht]; nlinarith
    · rw [if_neg ht]; nlinarith
  · exact min_le_left _ _

/-- C9 witness: the formula and range at a concrete record with
importance 0.5. -/
theorem c9_witness :
    (0 ≤ itemOld.importance ∧ itemOld.importance ≤ 1 ∧ 0 ≤ itemOld.accessCount) ∧
    (calculateRetentionScore itemOld 0 =
      min 1 (((itemOld.importance : ℝ) + min 0.3 ((itemOld.accessCount : ℝ) * 0.05)) *
        Real.exp (-((((0 : ℚ) - itemOld.timestamp : ℚ) : ℝ) / 86400000) * 0.1) *
        (if ∃ tag ∈ itemOld.tags, tag ∈ importantTags then 1.5 else 1)) ∧
      0 ≤ calculateRetentionScore itemOld 0 ∧ calculateRetentionScore itemOld 0 ≤ 1) :=
  ⟨⟨by norm_num [itemOld], by norm_num [itemOld], by norm_num [itemOld]⟩,
    c9_retention_formula itemOld 0 (by norm_num [itemOld]) (by norm_num [itemOld])
      (by norm_num [itemOld])⟩

end MemSpec

namespace MemSpec

/-! ## Comparator facts shared by the sorting claims -/

theorem retentionLe_trans :
    ∀ a b c : MemoryItem, retentionLe a b → retentionLe b c → retentionLe a c := by
  intro a b c hab hbc
  simp only [retentionLe, decide_eq_true_eq] at *
  exact le_trans hbc hab

theorem retentionLe_total : ∀ a b : MemoryItem, retentionLe a b || retentionLe b a := by
  intro a b
  simp only [retentionLe, Bool.or_eq_true, decide_eq_true_eq]
  exact le_total _ _

theorem sortCmp_trans (sb : SortBy) :
    ∀ a b c : MemoryItem × ℝ, sortCmp sb a b → sortCmp sb b c → sortCmp sb a c := by
  intro a b c hab hbc
  cases sb <;> simp only [sortCmp, decide_eq_true_eq] at * <;> exact le_trans hbc hab

theorem sortCmp_total (sb : SortBy) :
    ∀ a b : MemoryItem × ℝ, sortCmp sb a b || sortCmp sb b a := by
  intro a b
  cases sb <;> simp only [sortCmp, Bool.or_eq_true, decide_eq_true_eq] <;> exact le_total _ _

/-! ## C3 -/

/-- A state holding 51 copies of `itemA` in the short-term tier. -/
def state51 : MemorySystemState := ⟨List.replicate 51 itemA, [], [], 7/10, 8/10, 0⟩

/-- C3: when `compress()` runs with more than 50 short-term records, the
scored short-term records are sorted descending by retention score,
exactly the top 35 remain in `shortTerm`, the records ranked 36-55 are
appended to `longTerm` regardless of score, and of those ranked beyond
55 exactly the ones with retention score above 0.3 are appended to the
archive (which is then aged), the rest being dropped with no signal. -/
theorem c3_compression_partition (now : ℚ) (s : MemorySystemState)
    (h : 50 < s.shortTerm.length) :
    List.Pairwise (fun a b => retKey b ≤ retKey a) (sortedByRetention now s) ∧
    (compressMemoriesInternal now s).shortTerm = (sortedByRetention now s).take 35 ∧
    (compressMemoriesInternal now s).longTerm =
      s.longTerm ++ ((sortedByRetention now s).drop 35).take 20 ∧
    (compressMemoriesInternal now s).archive =
      (s.archive ++ ((sortedByRetention now s).drop 55).filter
        (fun m => decide ((0.3 : ℝ) < retKey m))).filter (sweepKeep now) := by
  refine ⟨?_, ?_, ?_, ?_⟩
  · have hs := List.sorted_mergeSort retentionLe_trans retentionLe_total
      (scoredShortTerm now s)
    rw [sortedByRetention]
    exact hs.imp (by intro a b hab; simpa [retentionLe] using hab)
  · rw [compress_above now s h]
    simp [jsSlice, keepCount_eq]
  · rw [compress_above now s h]
    simp [jsSlice, keepCount_eq]
  · rw [compress_above now s h]
    simp [newlyArchived, keepCount_eq]

/-- C3 witness: the partition at a concrete state with 51 short-term
records. -/
theorem c3_witness :
    50 < state51.shortTerm.length ∧
    (List.Pairwise (fun a b => retKey b ≤ retKey a) (sortedByRetention 0 state51) ∧
     (compressMemoriesInternal 0 state51).shortTerm = (sortedByRetention 0 state51).take 35 ∧
     (compressMemoriesInternal 0 state51).longTerm =
       state51.longTerm ++ ((sortedByRetention 0 state51).drop 35).take 20 ∧
     (compressMemoriesInternal 0 state51).archive =
       (state51.archive ++ ((sortedByRetention 0 state51).drop 55).filter
         (fun m => decide ((0.3 : ℝ) < retKey m))).filter (sweepKeep 0)) :=
  ⟨by simp [state51], c3_compression_partition 0 state51 (by simp [state51])⟩

/-! ## C7 -/

/-- C7: every retrieval returns at most `limit` records, each drawn from
the candidate set (short-term and long-term, plus the archive only when
`includeArchived`), each carrying its genuine relevance score which is
at least `threshold`, and the returned list is sorted by the chosen
criterion (relevance descending, newest timestamp first, or importance
descending). -/
theorem c7_retrieval_contract (now : ℚ) (query : String) (opts : MemoryRetrievalOptions)
    (s : MemorySystemState) :
    (retrieveMemories now query opts s).1.length ≤ opts.limit ∧
    (∀ p ∈ (retrieveMemories now query opts s).1,
      p.1 ∈ candidateMemories opts s ∧
      p.2 = calculateRelevance now query p.1 ∧
      opts.threshold ≤ p.2) ∧
    List.Pairwise (fun a b =>
      match opts.sortBy with
      | SortBy.relevance => b.2 ≤ a.2
      | SortBy.recency => b.1.timestamp ≤ a.1.timestamp
      | SortBy.importance => b.1.importance ≤ a.1.importance)
      (retrieveMemories now query opts s).1 := by
  have hfst : (retrieveMemories now query opts s).1 =
      (sortedSurvivors now query opts s).take opts.limit := rfl
  refine ⟨?_, ?_, ?_⟩
  · rw [hfst]; exact List.length_take_le _ _
  · intro p hp
    rw [hfst] at hp
    have hp2 : p ∈ sortedSurvivors now query opts s := List.take_subset _ _ hp
    have hp3 : p ∈ relevanceSurvivors now query opts s := by
      rw [sortedSurvivors] at hp2
      exact (List.mergeSort_perm _ _).subset hp2
    obtain ⟨hmem, hdec⟩ := List.mem_filter.1 hp3
    obtain ⟨m, hm, hpm⟩ := List.mem_map.1 hmem
    subst hpm
    exact ⟨hm, rfl, by simpa using hdec⟩
  · have hsorted := List.sorted_mergeSort (sortCmp_trans opts.sortBy)
      (sortCmp_total opts.sortBy) (relevanceSurvivors now query opts s)
    have htake : List.Pairwise (fun a b => sortCmp opts.sortBy a b = true)
        ((sortedSurvivors now query opts s).take opts.limit) :=
      List.Pairwise.sublist (List.take_sublist _ _) hsorted
    rw [hfst]
    refine htake.imp ?_
    intro a b hab
    cases hsb : opts.sortBy <;> rw [hsb] at hab <;>
      simpa [sortCmp] using hab

/-! ## C8 -/

/-- C8: storing a non-duplicate item appends it to `shortTerm`, the
compression routine runs synchronously exactly when the appended length
exceeds 100, and every store call leaves `shortTerm` with at most 100
records (given it held at most 100 before). -/
theorem c8_store_capacity (now : ℚ) (item : MemoryItem) (s : MemorySystemState)
    (h : s.shortTerm.length ≤ 100) :
    (isDuplicate item s = false →
      (s.shortTerm.length + 1 ≤ 100 →
        storeMemory now item s = { s with shortTerm := s.shortTerm ++ [item] }) ∧
      (100 < s.shortTerm.length + 1 →
        storeMemory now item s =
          compressMemoriesInternal now { s with shortTerm := s.shortTerm ++ [item] })) ∧
    (storeMemory now item s).shortTerm.length ≤ 100 := by
  by_cases hdup : isDuplicate item s
  · refine ⟨fun hfalse => absurd hdup (by simp [hfalse]), ?_⟩
    rw [storeMemory, if_pos hdup]
    exact h
  · have hd : isDuplicate item s = false := by simpa using hdup
    have happ : ({ s with shortTerm := s.shortTerm ++ [item]} :
        MemorySystemState).shortTerm.length = s.shortTerm.length + 1 := by simp
    constructor
    · intro _
      constructor
      · intro hle
        rw [storeMemory, if_neg hdup, if_neg (by simpa [happ] using Nat.not_lt.2 hle)]
      · intro hgt
        rw [storeMemory, if_neg hdup, if_pos (by simpa [happ] using hgt)]
    · rw [storeMemory, if_neg hdup]
      by_cases htrig : 100 < s.shortTerm.length + 1
      · rw [if_pos (by simpa [happ] using htrig)]
        have h51 : 50 < ({ s with shortTerm := s.shortTerm ++ [item]} :
            MemorySystemState).shortTerm.length := by simp; omega
        rw [compress_above now _ h51]
        simp only [jsSlice, keepCount_eq]
        calc ((((sortedByRetention now _).drop 0).take 35).length) ≤ 35 :=
              List.length_take_le _ _
          _ ≤ 100 := by omega
      · rw [if_neg (by simpa [happ] using htrig)]
        simp only [happ]
        omega

/-- C8 witness: the capacity bound applied to the empty store. -/
theorem c8_witness :
    emptyState.shortTerm.length ≤ 100 ∧
    ((isDuplicate itemA emptyState = false →
      (emptyState.shortTerm.length + 1 ≤ 100 →
        storeMemory 0 itemA emptyState =
          { emptyState with shortTerm := emptyState.shortTerm ++ [itemA] }) ∧
      (100 < emptyState.shortTerm.length + 1 →
        storeMemory 0 itemA emptyState =
          compressMemoriesInternal 0
            { emptyState with shortTerm := emptyState.shortTerm ++ [itemA] })) ∧
     (storeMemory 0 itemA emptyState).shortTerm.length ≤ 100) :=
  ⟨by simp [emptyState], c8_store_capacity 0 itemA emptyState (by simp [emptyState])⟩

end MemSpec

namespace MemSpec

/-! ## C6 -/

theorem serializedLower_eq (c : String) :
    serializedLower c = '"' :: lowerChars c.data ++ ['"'] := by
  simp [serializedLower, serializeContent, lowerChars,
    show Char.toLower '"' = '"' from rfl]

theorem jsIncludes_of_infix {hay w : List Char} (h : w <:+: hay) :
    jsIncludes hay w = true := by
  obtain ⟨t, hpre, hsuf⟩ := List.infix_iff_prefix_suffix.1 h
  rw [jsIncludes, List.any_eq_true]
  refine ⟨t, (List.mem_tails _ _).2 hsuf, ?_⟩
  rw [ List.isPrefixOf_iff_prefix]
  exact hpre

/-- The lowercased serialized content of a record contains the lowercased
query whenever the content equals the query. -/
theorem jsIncludes_serialized_self (c : String) :
    jsIncludes (serializedLower c) (lowerChars c.data) = true := by
  apply jsIncludes_of_infix
  rw [serializedLower_eq]
  exact ⟨['"'], ['"'], by simp⟩

/-- C6 (counterexample): `itemA`'s content equals the query `"alpha"`,
its importance and access count are zero (non-negative), yet 100 days
after creation `retrieve` with threshold 0.7 returns nothing: the
recency multiplier bottoms out at 0.5, giving relevance 0.4 < 0.7. -/
theorem c6_counterexample :
    itemA.content = "alpha" ∧ itemA ∈ state1.shortTerm ∧
    0 ≤ itemA.importance ∧ 0 ≤ itemA.accessCount ∧
    defaultOptions.threshold = 0.7 ∧
    (retrieveMemories 8640000000 "alpha" defaultOptions state1).1 = [] := by
  refine ⟨rfl, by simp [state1], by norm_num [itemA], by norm_num [itemA], rfl, ?_⟩
  have hrel : calculateRelevance 8640000000 "alpha" itemA = 0.4 := by
    rw [calculateRelevance]
    have h1 : jsIncludes (serializedLower "alpha") (lowerChars "alpha".data) = true := by
      decide
    have h2 : jsIncludes (lowerChars (joinSpace ([] : List String)))
        (lowerChars "alpha".data) = false := by decide
    have h3 : (List.filter (fun w => decide (w ∈ jsWords (serializedLower "alpha")))
        (jsWords (lowerChars "alpha".data))).length = 0 := by decide
    have h4 : (jsWords (lowerChars "alpha".data)).length = 1 := by decide
    simp only [itemA, h1, h2, h3, h4]
    rw [show ((8640000000 : ℚ) - 0 : ℚ) = 8640000000 by norm_num]
    rw [show (((8640000000 : ℚ) : ℝ) / 86400000 : ℝ) = 100 by norm_num]
    norm_num [Real.log_one]
  have hsurv : relevanceSurvivors 8640000000 "alpha" defaultOptions state1 = [] := by
    rw [relevanceSurvivors]
    simp only [candidateMemories, state1, defaultOptions, List.append_nil,
      List.map_cons, List.map_nil, if_neg Bool.false_ne_true]
    rw [List.filter_cons, if_neg, List.filter_nil]
    simp only [hrel, decide_eq_true_eq]
    norm_num
  have : (retrieveMemories 8640000000 "alpha" defaultOptions state1).1 =
      (sortedSurvivors 8640000000 "alpha" defaultOptions state1).take
        defaultOptions.limit := rfl
  rw [this, sortedSurvivors, hsurv]
  simp

/-- C6 (amended): a stored record whose content equals the query, with
non-negative importance and access count and at most 12.5 days old, has
relevance at least 0.7 and therefore survives the threshold-0.7 filter
of `retrieve`; it is returned whenever it falls within the first
`limit` entries of the sorted survivor list. -/
theorem c6_exact_match_relevance (now : ℚ) (query : String) (m : MemoryItem)
    (opts : MemoryRetrievalOptions) (s : MemorySystemState)
    (hc : m.content = query)
    (him : 0 ≤ m.importance)
    (hac : 0 ≤ m.accessCount)
    (hage : now - m.timestamp ≤ 1080000000)
    (hth : opts.threshold = 0.7) :
    (0.7 : ℝ) ≤ calculateRelevance now query m ∧
    (m ∈ candidateMemories opts s →
      (m, calculateRelevance now query m) ∈ relevanceSurvivors now query opts s) := by
  have hbonus : jsIncludes (serializedLower m.content) (lowerChars query.data) = true := by
    rw [hc]; exact jsIncludes_serialized_self query
  have hscore : (0.7 : ℝ) ≤ calculateRelevance now query m := by
    have gen : ∀ b ov i lg mx : ℝ, 0 ≤ b → 0 ≤ ov → 1 ≤ i → 1 ≤ lg →
        (0.875 : ℝ) ≤ mx → (0.7 : ℝ) ≤ min 1 ((0.8 + b + ov) * i * lg * mx) := by
      intro b ov i lg mx hb hov hi hlg hmx
      have h0 : (0.8 : ℝ) ≤ 0.8 + b + ov := by linarith
      have hs0 : (0 : ℝ) ≤ 0.8 + b + ov := by linarith
      have h1 : (0.8 : ℝ) ≤ (0.8 + b + ov) * i := by nlinarith
      have h2 : (0.8 : ℝ) ≤ (0.8 + b + ov) * i * lg := by nlinarith
      have h3 : (0.7 : ℝ) ≤ (0.8 + b + ov) * i * lg * mx := by nlinarith
      exact le_min (by norm_num) h3
    rw [calculateRelevance]
    simp only [hbonus, if_true]
    apply gen
    · split <;> norm_num
    · positivity
    · have : (0 : ℝ) ≤ (m.importance : ℝ) := by exact_mod_cast him
      nlinarith
    · have hlog : (0 : ℝ) ≤ Real.log ((m.accessCount : ℝ) + 1) := by
        apply Real.log_nonneg
        have : (0 : ℝ) ≤ (m.accessCount : ℝ) := by exact_mod_cast hac
        linarith
      nlinarith
    · apply le_max_of_le_right
      have hd : (((now - m.timestamp : ℚ) : ℝ)) ≤ 1080000000 := by exact_mod_cast hage
      have : (((now - m.timestamp : ℚ) : ℝ)) / 86400000 ≤ 12.5 := by
        rw [div_le_iff₀ (by norm_num)]
        linarith
      linarith
  refine ⟨hscore, fun hm => ?_⟩
  rw [relevanceSurvivors]
  refine List.mem_filter.2 ⟨List.mem_map.2 ⟨m, hm, rfl⟩, ?_⟩
  simp only [decide_eq_true_eq, hth]
  exact hscore

/-- C6 witness: the amended statement at `itemA` (content `"alpha"`,
created at `now`) with the default options. -/
theorem c6_witness :
    (itemA.content = "alpha" ∧ 0 ≤ itemA.importance ∧ 0 ≤ itemA.accessCount ∧
      (0 : ℚ) - itemA.timestamp ≤ 1080000000 ∧ defaultOptions.threshold = 0.7) ∧
    ((0.7 : ℝ) ≤ calculateRelevance 0 "alpha" itemA ∧
     (itemA ∈ candidateMemories defaultOptions state1 →
       (itemA, calculateRelevance 0 "alpha" itemA) ∈
         relevanceSurvivors 0 "alpha" defaultOptions state1)) :=
  ⟨⟨rfl, by norm_num [itemA], by norm_num [itemA], by norm_num [itemA], rfl⟩,
    c6_exact_match_relevance 0 "alpha" itemA defaultOptions state1 rfl
      (by norm_num [itemA]) (by norm_num [itemA]) (by norm_num [itemA]) rfl⟩

end MemSpec

namespace MemSpec

/-! ## Helpers for the side-effect claims -/

/-- All records in the store, in tier order. -/
def allRecords (s : MemorySystemState) : List MemoryItem :=
  s.shortTerm ++ s.longTerm ++ s.archive

theorem mem_sortedByRetention {now : ℚ} {s : MemorySystemState} {m' : MemoryItem}
    (h : m' ∈ sortedByRetention now s) :
    ∃ m ∈ s.shortTerm,
      m' = { m with retentionScore := some (calculateRetentionScore m now) } := by
  rw [sortedByRetention] at h
  have h2 := (List.mergeSort_perm _ _).subset h
  rw [scoredShortTerm] at h2
  obtain ⟨m, hm, hEq⟩ := List.mem_map.1 h2
  exact ⟨m, hm, hEq.symm⟩

theorem jsSlice_subset (l : List MemoryItem) (a b : ℕ) : ∀ x ∈ jsSlice l a b, x ∈ l := by
  intro x hx
  exact List.drop_subset _ _ (List.take_subset _ _ hx)

/-- Compression only rearranges records: every record of the compressed
store keeps the id, access count and `lastAccessed` of a record of the
original store. -/
theorem compress_carries (now : ℚ) (s : MemorySystemState) :
    ∀ m' ∈ allRecords (compressMemoriesInternal now s),
      ∃ m ∈ allRecords s,
        m'.id = m.id ∧ m'.accessCount = m.accessCount ∧
        m'.lastAccessed = m.lastAccessed := by
  intro m' hm'
  have hsorted : ∀ x ∈ sortedByRetention now s, ∃ m ∈ allRecords s,
      x.id = m.id ∧ x.accessCount = m.accessCount ∧ x.lastAccessed = m.lastAccessed := by
    intro x hx
    obtain ⟨m, hm, hEq⟩ := mem_sortedByRetention hx
    exact ⟨m, List.mem_append_left _ (List.mem_append_left _ hm), by rw [hEq], by rw [hEq],
      by rw [hEq]⟩
  by_cases h : 50 < s.shortTerm.length
  · rw [compress_above now s h] at hm'
    simp only [allRecords, List.mem_append] at hm'
    rcases hm' with (hk | hl) | ha
    · exact hsorted _ (jsSlice_subset _ _ _ _ hk)
    · rcases hl with hl1 | hl2
      · exact ⟨m', List.mem_append_left _ (List.mem_append_right _ hl1), rfl, rfl, rfl⟩
      · exact hsorted _ (jsSlice_subset _ _ _ _ hl2)
    · have hmf := List.mem_filter.1 ha
      rcases List.mem_append.1 hmf.1 with ha1 | ha2
      · exact ⟨m', List.mem_append_right _ ha1, rfl, rfl, rfl⟩
      · rw [newlyArchived] at ha2
        have hx : m' ∈ sortedByRetention now s :=
          List.drop_subset _ _ (List.filter_subset' _ ha2)
        exact hsorted _ hx
  · rw [compress_below now s (by omega)] at hm'
    simp only [allRecords, List.mem_append] at hm'
    rcases hm' with (hk | hl) | ha
    · exact ⟨m', List.mem_append_left _ (List.mem_append_left _ hk), rfl, rfl, rfl⟩
    · exact ⟨m', List.mem_append_left _ (List.mem_append_right _ hl), rfl, rfl, rfl⟩
    · exact ⟨m', List.mem_append_right _ (List.filter_subset' _ ha), rfl, rfl, rfl⟩

theorem mem_retrieval_result {now : ℚ} {query : String} {opts : MemoryRetrievalOptions}
    {s : MemorySystemState} {p : MemoryItem × ℝ}
    (hp : p ∈ (retrieveMemories now query opts s).1) :
    p.1 ∈ candidateMemories opts s := by
  have hp2 : p ∈ sortedSurvivors now query opts s := List.take_subset _ _ hp
  have hp3 : p ∈ relevanceSurvivors now query opts s := by
    rw [sortedSurvivors] at hp2
    exact (List.mergeSort_perm _ _).subset hp2
  obtain ⟨hmem, _⟩ := List.mem_filter.1 hp3
  obtain ⟨m, hm, hpm⟩ := List.mem_map.1 hmem
  rw [← hpm]
  exact hm

theorem candidate_mem_all {opts : MemoryRetrievalOptions} {s : MemorySystemState}
    {x : MemoryItem} (hx : x ∈ candidateMemories opts s) : x ∈ allRecords s := by
  simp only [candidateMemories, List.mem_append] at hx
  rcases hx with (h | h) | h
  · exact List.mem_append_left _ (List.mem_append_left _ h)
  · exact List.mem_append_left _ (List.mem_append_right _ h)
  · rcases hb : opts.includeArchived with _ | _
    · rw [hb] at h; simp at h
    · rw [hb] at h; exact List.mem_append_right _ h

end MemSpec

namespace MemSpec

/-! ## C1 -/

/-- C1 (counterexample): a fresh record whose content matches the query
is returned by `retrieve`, yet the persisted record's `lastAccessed`
stays `none` — it is not set to the current time (the code never writes
that field). -/
theorem c1_counterexample :
    (retrieveMemories 0 "alpha" defaultOptions state1).1.map (fun p => p.1.id) = ["ida"] ∧
    (retrieveMemories 0 "alpha" defaultOptions state1).2.shortTerm.map
      (fun m => m.lastAccessed) = [none] ∧
    (none : Option ℚ) ≠ some 0 := by
  have hrel : calculateRelevance 0 "alpha" itemA = 0.8 := by
    rw [calculateRelevance]
    have h1 : jsIncludes (serializedLower "alpha") (lowerChars "alpha".data) = true := by
      decide
    have h2 : jsIncludes (lowerChars (joinSpace ([] : List String)))
        (lowerChars "alpha".data) = false := by decide
    have h3 : (List.filter (fun w => decide (w ∈ jsWords (serializedLower "alpha")))
        (jsWords (lowerChars "alpha".data))).length = 0 := by decide
    have h4 : (jsWords (lowerChars "alpha".data)).length = 1 := by decide
    simp only [itemA, h1, h2, h3, h4]
    norm_num [Real.log_one]
  have hsurv : relevanceSurvivors 0 "alpha" defaultOptions state1 = [(itemA, 0.8)] := by
    rw [relevanceSurvivors]
    simp only [candidateMemories, state1, defaultOptions, List.append_nil,
      List.map_cons, List.map_nil, if_neg Bool.false_ne_true]
    rw [hrel, List.filter_cons, if_pos, List.filter_nil]
    simp only [decide_eq_true_eq]
    norm_num
  have hres : (retrieveMemories 0 "alpha" defaultOptions state1).1 = [(itemA, 0.8)] := by
    have : (retrieveMemories 0 "alpha" defaultOptions state1).1 =
        (sortedSurvivors 0 "alpha" defaultOptions state1).take defaultOptions.limit := rfl
    rw [this, sortedSurvivors, hsurv]
    simp [defaultOptions]
  refine ⟨by rw [hres]; rfl, ?_, by simp⟩
  have hsnd : (retrieveMemories 0 "alpha" defaultOptions state1).2.shortTerm =
      state1.shortTerm.map (bumpIfRetrieved
        ((retrieveMemories 0 "alpha" defaultOptions state1).1.map (fun p => p.1.id))) := rfl
  rw [hsnd, hres]
  simp [state1, bumpIfRetrieved, itemA]

/-- C1 (amended): retrieval updates the persisted short-term and
long-term records whose id is among the returned ids — exactly the
returned records when ids are unique across tiers — incrementing
`accessCount` by exactly 1 and changing nothing else; `lastAccessed` is
never written; archived records are returned without any update; store
and compression only carry `accessCount`/`lastAccessed` forward. -/
theorem c1_access_side_effects (now : ℚ) (query : String)
    (opts : MemoryRetrievalOptions) (s : MemorySystemState)
    (h : ((s.shortTerm ++ s.longTerm ++ s.archive).map (fun m => m.id)).Nodup) :
    (retrieveMemories now query opts s).2.archive = s.archive ∧
    (retrieveMemories now query opts s).2.shortTerm.map (fun m => m.lastAccessed) =
      s.shortTerm.map (fun m => m.lastAccessed) ∧
    (retrieveMemories now query opts s).2.longTerm.map (fun m => m.lastAccessed) =
      s.longTerm.map (fun m => m.lastAccessed) ∧
    (retrieveMemories now query opts s).2.shortTerm.length = s.shortTerm.length ∧
    (retrieveMemories now query opts s).2.longTerm.length = s.longTerm.length ∧
    (∀ i (hi : i < (retrieveMemories now query opts s).2.shortTerm.length)
        (hj : i < s.shortTerm.length),
      (retrieveMemories now query opts s).2.shortTerm.get ⟨i, hi⟩ =
        (if (s.shortTerm.get ⟨i, hj⟩).id ∈
            (retrieveMemories now query opts s).1.map (fun p => p.1.id)
         then { s.shortTerm.get ⟨i, hj⟩ with
                  accessCount := (s.shortTerm.get ⟨i, hj⟩).accessCount + 1 }
         else s.shortTerm.get ⟨i, hj⟩)) ∧
    (∀ i (hi : i < (retrieveMemories now query opts s).2.longTerm.length)
        (hj : i < s.longTerm.length),
      (retrieveMemories now query opts s).2.longTerm.get ⟨i, hi⟩ =
        (if (s.longTerm.get ⟨i, hj⟩).id ∈
            (retrieveMemories now query opts s).1.map (fun p => p.1.id)
         then { s.longTerm.get ⟨i, hj⟩ with
                  accessCount := (s.longTerm.get ⟨i, hj⟩).accessCount + 1 }
         else s.longTerm.get ⟨i, hj⟩)) ∧
    (∀ m ∈ s.shortTerm ++ s.longTerm,
      (m.id ∈ (retrieveMemories now query opts s).1.map (fun p => p.1.id) ↔
        ∃ p ∈ (retrieveMemories now query opts s).1, p.1 = m)) ∧
    (∀ item : MemoryItem, ∀ m' ∈ allRecords (storeMemory now item s),
      ∃ m ∈ item :: allRecords s,
        m'.id = m.id ∧ m'.accessCount = m.accessCount ∧
        m'.lastAccessed = m.lastAccessed) ∧
    (∀ m' ∈ allRecords (compressMemoriesInternal now s),
      ∃ m ∈ allRecords s,
        m'.id = m.id ∧ m'.accessCount = m.accessCount ∧
        m'.lastAccessed = m.lastAccessed) := by
  have hbump_last : ∀ (ids : List String) (m : MemoryItem),
      (bumpIfRetrieved ids m).lastAccessed = m.lastAccessed := by
    intro ids m
    rw [bumpIfRetrieved]
    split <;> rfl
  have hbump_get : ∀ (ids : List String) (m : MemoryItem),
      bumpIfRetrieved ids m =
        (if m.id ∈ ids then { m with accessCount := m.accessCount + 1 } else m) := by
    intro ids m
    rw [bumpIfRetrieved]
    by_cases hmem : m.id ∈ ids
    · rw [if_pos hmem, if_pos (by simpa using hmem)]
    · rw [if_neg hmem, if_neg (by simpa using hmem)]
  refine ⟨rfl, ?_, ?_, by simp [retrieveMemories], by simp [retrieveMemories],
    ?_, ?_, ?_, ?_, compress_carries now s⟩
  · show (s.shortTerm.map (bumpIfRetrieved _)).map (fun m => m.lastAccessed) = _
    rw [List.map_map]
    exact List.map_congr_left (fun m _ => hbump_last _ m)
  · show (s.longTerm.map (bumpIfRetrieved _)).map (fun m => m.lastAccessed) = _
    rw [List.map_map]
    exact List.map_congr_left (fun m _ => hbump_last _ m)
  · intro i hi hj
    show (s.shortTerm.map (bumpIfRetrieved _)).get ⟨i, hi⟩ = _
    simp only [List.get_eq_getElem, List.getElem_map]
    exact hbump_get _ _
  · intro i hi hj
    show (s.longTerm.map (bumpIfRetrieved _)).get ⟨i, hi⟩ = _
    simp only [List.get_eq_getElem, List.getElem_map]
    exact hbump_get _ _
  · intro m hm
    constructor
    · intro hid
      obtain ⟨p, hp, hpid⟩ := List.mem_map.1 hid
      have hpc : p.1 ∈ candidateMemories opts s := mem_retrieval_result hp
      have hpall : p.1 ∈ s.shortTerm ++ s.longTerm ++ s.archive := candidate_mem_all hpc
      have hmall : m ∈ s.shortTerm ++ s.longTerm ++ s.archive := List.mem_append_left _ hm
      have := List.inj_on_of_nodup_map h hpall hmall hpid
      exact ⟨p, hp, this⟩
    · rintro ⟨p, hp, rfl⟩
      exact List.mem_map.2 ⟨p, hp, rfl⟩
  · intro item m' hm'
    rw [storeMemory] at hm'
    by_cases hdup : isDuplicate item s
    · rw [if_pos hdup] at hm'
      exact ⟨m', List.mem_cons_of_mem _ hm', rfl, rfl, rfl⟩
    · rw [if_neg hdup] at hm'
      have hmem_app : ∀ x ∈ allRecords { s with shortTerm := s.shortTerm ++ [item] },
          x ∈ item :: allRecords s := by
        intro x hx
        simp only [allRecords, List.mem_append] at hx
        rcases hx with (hx1 | hx2) | hx3
        · rcases hx1 with hx1a | hx1b
          · exact List.mem_cons_of_mem _
              (List.mem_append_left _ (List.mem_append_left _ hx1a))
          · simp only [List.mem_singleton] at hx1b
            rw [hx1b]
            exact List.mem_cons_self _ _
        · exact List.mem_cons_of_mem _
            (List.mem_append_left _ (List.mem_append_right _ hx2))
        · exact List.mem_cons_of_mem _ (List.mem_append_right _ hx3)
      by_cases htrig : 100 < (s.shortTerm ++ [item]).length
      · rw [if_pos (by simpa using htrig)] at hm'
        obtain ⟨m, hmem, heq⟩ := compress_carries now _ m' hm'
        exact ⟨m, hmem_app m hmem, heq⟩
      · rw [if_neg (by simpa using htrig)] at hm'
        exact ⟨m', hmem_app m' hm', rfl, rfl, rfl⟩

/-- C1 witness: the side-effect characterization at a concrete
single-record store (unique ids hold trivially). -/
theorem c1_witness :
    ((state1.shortTerm ++ state1.longTerm ++ state1.archive).map
      (fun m => m.id)).Nodup ∧
    ((retrieveMemories 0 "alpha" defaultOptions state1).2.archive = state1.archive ∧
     (retrieveMemories 0 "alpha" defaultOptions state1).2.shortTerm.map
        (fun m => m.lastAccessed) =
       state1.shortTerm.map (fun m => m.lastAccessed)) := by
  have hnd : ((state1.shortTerm ++ state1.longTerm ++ state1.archive).map
      (fun m => m.id)).Nodup := by
    simp [state1]
  obtain ⟨h1, h2, _⟩ := c1_access_side_effects 0 "alpha" defaultOptions state1 hnd
  exact ⟨hnd, h1, h2⟩

end MemSpec

namespace MemSpec

/-! ## C10 -/

/-- A record with content `"a"`. -/
def itemC : MemoryItem := ⟨"idc", "a", 0, 0, 0, [], none, none⟩

/-- A record with content `"b"`, dissimilar to `itemC`. -/
def itemD : MemoryItem := ⟨"idd", "b", 0, 0, 0, [], none, none⟩

/-- A state whose short-term tier holds 100 copies of `itemC` and whose
long-term tier is empty. -/
def state100 : MemorySystemState := ⟨List.replicate 100 itemC, [], [], 7/10, 8/10, 0⟩

theorem similarity_a_b : calculateSimilarity "a" "b" = 0 := by
  rw [calculateSimilarity, if_neg (by decide)]
  have h1 : (List.filter (fun w => decide (w ∈ (jsWords (serializedLower "b")).dedup))
      (jsWords (serializedLower "a")).dedup).length = 0 := by decide
  have h2 : ((jsWords (serializedLower "a")).dedup ++
      (jsWords (serializedLower "b")).dedup).dedup.length = 2 := by decide
  simp only [h1, h2]
  norm_num

/-- C10 (counterexample): storing a non-duplicate 101st record triggers
compression inside the `store` call, which appends 20 promoted records
to the previously empty long-term tier — `store` does not leave
`longTerm` unchanged. -/
theorem c10_counterexample :
    (storeMemory 0 itemD state100).longTerm ≠ state100.longTerm := by
  have hdup : ¬ (isDuplicate itemD state100 = true) := by
    rw [isDuplicate, List.any_eq_true]
    rintro ⟨x, hx, hsim⟩
    rw [state100] at hx
    have hxc := List.eq_of_mem_replicate hx
    rw [hxc] at hsim
    rw [decide_eq_true_eq, show itemC.content = "a" from rfl,
      show itemD.content = "b" from rfl, similarity_a_b] at hsim
    norm_num at hsim
  have hlen : ({ state100 with shortTerm := state100.shortTerm ++ [itemD] } :
      MemorySystemState).shortTerm.length = 101 := by simp [state100]
  have hstore : storeMemory 0 itemD state100 =
      compressMemoriesInternal 0
        { state100 with shortTerm := state100.shortTerm ++ [itemD] } := by
    rw [storeMemory, if_neg hdup, if_pos (by rw [hlen]; omega)]
  rw [hstore, compress_above 0 _ (by rw [hlen]; omega)]
  intro heq
  have hlong := congrArg List.length heq
  simp only [state100, jsSlice, keepCount_eq, List.length_append, List.length_take,
    List.length_drop, sortedByRetention, scoredShortTerm, List.length_mergeSort,
    List.length_map, List.length_replicate, List.length_nil, List.nil_append] at hlong
  omega

/-- Compression can only append to the long-term tier. -/
theorem compress_longTerm_append (now : ℚ) (s : MemorySystemState) :
    ∃ t, (compressMemoriesInternal now s).longTerm = s.longTerm ++ t := by
  by_cases h : 50 < s.shortTerm.length
  · exact ⟨jsSlice (sortedByRetention now s) keepCount (keepCount + 20),
      by rw [compress_above now s h]⟩
  · exact ⟨[], by rw [compress_below now s (by omega)]; simp⟩

/-- C10 (amended): no operation removes records from `longTerm`:
`store` either leaves it unchanged or — when it triggers compression —
only appends promoted records; `compress` only appends; `retrieve`
keeps the tier's length and order, at most bumping `accessCount` of
individual records in place; hence the long-term tier's length never
decreases. -/
theorem c10_long_term_monotone :
    (∀ (now : ℚ) (item : MemoryItem) (s : MemorySystemState),
      ∃ t, (storeMemory now item s).longTerm = s.longTerm ++ t) ∧
    (∀ (now : ℚ) (s : MemorySystemState),
      ∃ t, (compressMemoriesInternal now s).longTerm = s.longTerm ++ t) ∧
    (∀ (now : ℚ) (query : String) (opts : MemoryRetrievalOptions) (s : MemorySystemState),
      (retrieveMemories now query opts s).2.longTerm.length = s.longTerm.length ∧
      ∀ i (hi : i < (retrieveMemories now query opts s).2.longTerm.length)
          (hj : i < s.longTerm.length),
        ((retrieveMemories now query opts s).2.longTerm.get ⟨i, hi⟩ =
            s.longTerm.get ⟨i, hj⟩ ∨
         (retrieveMemories now query opts s).2.longTerm.get ⟨i, hi⟩ =
           { s.longTerm.get ⟨i, hj⟩ with
               accessCount := (s.longTerm.get ⟨i, hj⟩).accessCount + 1 })) ∧
    (∀ (now : ℚ) (item : MemoryItem) (s : MemorySystemState),
      s.longTerm.length ≤ (storeMemory now item s).longTerm.length) ∧
    (∀ (now : ℚ) (s : MemorySystemState),
      s.longTerm.length ≤ (compressMemoriesInternal now s).longTerm.length) := by
  have hstore : ∀ (now : ℚ) (item : MemoryItem) (s : MemorySystemState),
      ∃ t, (storeMemory now item s).longTerm = s.longTerm ++ t := by
    intro now item s
    rw [storeMemory]
    by_cases hdup : isDuplicate item s
    · rw [if_pos hdup]
      exact ⟨[], by simp⟩
    · rw [if_neg hdup]
      by_cases htrig : 100 < (s.shortTerm ++ [item]).length
      · rw [if_pos (by simpa using htrig)]
        exact compress_longTerm_append now _
      · rw [if_neg (by simpa using htrig)]
        exact ⟨[], by simp⟩
  refine ⟨hstore, compress_longTerm_append, ?_, ?_, ?_⟩
  · intro now query opts s
    refine ⟨by simp [retrieveMemories], ?_⟩
    intro i hi hj
    show (s.longTerm.map (bumpIfRetrieved _)).get ⟨i, hi⟩ = _ ∨
      (s.longTerm.map (bumpIfRetrieved _)).get ⟨i, hi⟩ = _
    simp only [List.get_eq_getElem, List.getElem_map, bumpIfRetrieved]
    split
    · exact Or.inr rfl
    · exact Or.inl rfl
  · intro now item s
    obtain ⟨t, ht⟩ := hstore now item s
    rw [ht, List.length_append]
    omega
  · intro now s
    obtain ⟨t, ht⟩ := compress_longTerm_append now s
    rw [ht, List.length_append]
    omega

end MemSpec
